import Mathlib

/-!
Shallow embedding of the image-to-PDF converter component
(src/convertor/src/components/ImageToPdf.tsx) and proofs about its
session-state operations (handleFiles, removeImage, reorderImages,
sortImages, clear) and its layout/render pipeline (generatePDF).

Modelling conventions:
- millimetre quantities are rationals (the source computes with JS numbers
  on exact decimal inputs; every formula here is the literal source formula);
- object URLs (URL.createObjectURL) and the random preview ids are modelled
  as fresh natural-number handles drawn from a counter in the state;
- a thrown JS exception is modelled as Option.none / Except.error;
- the PDF document is a list of pages, each page the list of images placed
  on it by pdf.addImage.
-/

/-- Browser File object, restricted to the fields the component reads:
name, MIME type, byte size, and the natural pixel dimensions that the
image decoder reports for it. -/
structure ImgFile where
  name : String
  type : String
  size : Nat
  widthPx : Nat
  heightPx : Nat
deriving DecidableEq

/-- Preview record built by handleFiles: file name, object URL (a numeric
handle here), the underlying file, and the id (random in the source,
modelled as a fresh handle). -/
structure Preview where
  name : String
  url : Nat
  file : ImgFile
  id : Nat
deriving DecidableEq

/-- PageSize union type of the source. -/
inductive PageSize
  | a4
  | letter
  | legal
  | a3
deriving DecidableEq

/-- PageOrientation union type of the source. -/
inductive PageOrientation
  | portrait
  | landscape
deriving DecidableEq

/-- ImageSize union type of the source (the sizing policy). -/
inductive ImageSize
  | fit
  | fill
  | original
deriving DecidableEq

/-- Sort direction union type of the source (the sortOrder state). -/
inductive SortDir
  | asc
  | desc
deriving DecidableEq

/-- Session state of the component: the parallel files and previews lists,
the sort direction, the handle counter for fresh object URLs / ids, the
list of revoked object URLs (URL.revokeObjectURL calls so far), and the
conversion-progress fields. -/
structure State where
  files : List ImgFile
  previews : List Preview
  sortOrder : SortDir
  nextHandle : Nat
  revoked : List Nat
  isConverting : Bool
  progress : Nat
deriving DecidableEq

/-- Layout configuration read by generatePDF. -/
structure Config where
  pageSize : PageSize
  orientation : PageOrientation
  imageSize : ImageSize
  margin : ℚ
deriving DecidableEq

/-- pageDimensions table of generatePDF (width, height) in mm, portrait
reference orientation. -/
def pageDimensions : PageSize → ℚ × ℚ
  | .a4 => (210, 297)
  | .letter => (215.9, 279.4)
  | .legal => (215.9, 355.6)
  | .a3 => (297, 420)

/-- pageWidth of generatePDF: landscape swaps the reference dimensions. -/
def pageWidth (cfg : Config) : ℚ :=
  if cfg.orientation = .landscape then (pageDimensions cfg.pageSize).2
  else (pageDimensions cfg.pageSize).1

/-- pageHeight of generatePDF. -/
def pageHeight (cfg : Config) : ℚ :=
  if cfg.orientation = .landscape then (pageDimensions cfg.pageSize).1
  else (pageDimensions cfg.pageSize).2

/-- maxW of generatePDF: printable width, page width minus both margins. -/
def maxW (cfg : Config) : ℚ := pageWidth cfg - cfg.margin * 2

/-- maxH of generatePDF: printable height. -/
def maxH (cfg : Config) : ℚ := pageHeight cfg - cfg.margin * 2

/-- pxToMm constant of generatePDF: 25.4 / 96 (96 DPI assumption). -/
def pxToMm : ℚ := 25.4 / 96

/-- Check whether the character list sub occurs at the head of s
(helper for the String.includes model). -/
def startsWithSeq : List Char → List Char → Bool
  | _, [] => true
  | [], _ :: _ => false
  | a :: as, b :: bs => a == b && startsWithSeq as bs

/-- Check whether the character list sub occurs anywhere inside s. -/
def containsSeq : List Char → List Char → Bool
  | [], sub => startsWithSeq [] sub
  | s@(_ :: rest), sub => startsWithSeq s sub || containsSeq rest sub

/-- Model of JS String.prototype.includes: substring containment. -/
def strIncludes (s sub : String) : Bool := containsSeq s.data sub.data

/-- Image type tag passed to pdf.addImage, translated from the source:
file.type.includes("png") gives PNG, else includes("webp") gives WEBP,
else JPEG. -/
def typeTag (t : String) : String :=
  if strIncludes t "png" then "PNG"
  else if strIncludes t "webp" then "WEBP"
  else "JPEG"

/-- Placement of one image on a page: the image placed, the type tag, and
the x, y, width, height arguments handed to pdf.addImage. -/
structure Placement where
  image : ImgFile
  tag : String
  x : ℚ
  y : ℚ
  w : ℚ
  h : ℚ
deriving DecidableEq

/-- Per-entry placement computation of generatePDF: pixel-to-mm
conversion followed by the fit / fill / original switch, literally from
the source. -/
def computePlacement (cfg : Config) (f : ImgFile) : Placement :=
  let imgWmm : ℚ := (f.widthPx : ℚ) * pxToMm
  let imgHmm : ℚ := (f.heightPx : ℚ) * pxToMm
  match cfg.imageSize with
  | .fit =>
    let widthRatio := maxW cfg / imgWmm
    let heightRatio := maxH cfg / imgHmm
    let ratio := min (min widthRatio heightRatio) 1
    { image := f, tag := typeTag f.type,
      x := (pageWidth cfg - imgWmm * ratio) / 2,
      y := (pageHeight cfg - imgHmm * ratio) / 2,
      w := imgWmm * ratio, h := imgHmm * ratio }
  | .fill =>
    let fillRatio := max (maxW cfg / imgWmm) (maxH cfg / imgHmm)
    { image := f, tag := typeTag f.type,
      x := (pageWidth cfg - imgWmm * fillRatio) / 2,
      y := (pageHeight cfg - imgHmm * fillRatio) / 2,
      w := imgWmm * fillRatio, h := imgHmm * fillRatio }
  | .original =>
    let finalW := if imgWmm > maxW cfg ∨ imgHmm > maxH cfg then
        imgWmm * min (min (maxW cfg / imgWmm) (maxH cfg / imgHmm)) 1
      else imgWmm
    let finalH := if imgWmm > maxW cfg ∨ imgHmm > maxH cfg then
        imgHmm * min (min (maxW cfg / imgWmm) (maxH cfg / imgHmm)) 1
      else imgHmm
    { image := f, tag := typeTag f.type,
      x := (pageWidth cfg - finalW) / 2,
      y := (pageHeight cfg - finalH) / 2,
      w := finalW, h := finalH }

/-- MIME filter of handleFiles: the four accepted image types. -/
def acceptType (f : ImgFile) : Bool :=
  f.type == "image/jpeg" || f.type == "image/png" ||
  f.type == "image/webp" || f.type == "image/gif"

/-- Preview construction of handleFiles for the chosen files, allocating
consecutive fresh handles for the object URLs and ids. -/
def mkPreviews : List ImgFile → Nat → List Preview
  | [], _ => []
  | f :: fs, h => { name := f.name, url := h, file := f, id := h } :: mkPreviews fs (h + 1)

/-- handleFiles: filter the input to the accepted MIME types, append the
chosen files to files, and append freshly built previews to previews.
Rejected files are dropped with no error channel. The artificial setTimeout
delay and the isLoading flag are presentation-only and not modelled. -/
def handleFiles (st : State) (input : List ImgFile) : State :=
  let chosen := input.filter acceptType
  { st with
    files := st.files ++ chosen
    previews := st.previews ++ mkPreviews chosen st.nextHandle
    nextHandle := st.nextHandle + chosen.length }

/-- clear: revoke every preview URL and empty both lists. -/
def clear (st : State) : State :=
  { st with
    revoked := st.revoked ++ st.previews.map (·.url)
    files := []
    previews := [] }

/-- Index-based filter of removeImage: the JS filter((_, i) => i !== index),
written with an explicit position counter. -/
def filterOutFrom {α : Type} (idx : Nat) : Nat → List α → List α
  | _, [] => []
  | i, a :: as =>
    if i = idx then filterOutFrom idx (i + 1) as
    else a :: filterOutFrom idx (i + 1) as

/-- filter((_, i) => i !== index) starting at position 0. -/
def filterOutIdx {α : Type} (l : List α) (idx : Nat) : List α :=
  filterOutFrom idx 0 l

/-- removeImage: the source reads previews[index].url with no bounds check,
so an out-of-range index throws a TypeError (modelled as none); a valid
index revokes that URL and filters both lists by position. -/
def removeImage (st : State) (index : Nat) : Option State :=
  match st.previews[index]? with
  | none => none
  | some p =>
    some { st with
      revoked := st.revoked ++ [p.url]
      previews := filterOutIdx st.previews index
      files := filterOutIdx st.files index }

/-- Model of the two splice calls of reorderImages on one list: remove the
element at i, then insert it at j (splice clamps the insertion index to the
new length). When i is out of range the JS destructuring yields undefined
and splices undefined back in; that unrepresentable state is modelled as
none. -/
def spliceMove {α : Type} (l : List α) (i j : Nat) : Option (List α) :=
  match l[i]? with
  | none => none
  | some moved =>
    let rest := l.eraseIdx i
    some (rest.insertIdx (min j rest.length) moved)

/-- reorderImages: the same splice move applied to previews and files in
one state transition. -/
def reorderImages (st : State) (i j : Nat) : Option State :=
  match spliceMove st.previews i j, spliceMove st.files i j with
  | some ps, some fs => some { st with previews := ps, files := fs }
  | _, _ => none

/-- Modelled from the spec: the platform String.prototype.localeCompare
used by sortImages is a browser API whose code is not in src/; the spec
describes the ordering as case-insensitive lexicographic comparison of the
names, embedded here as lexicographic comparison of lower-cased code
points, returning -1 / 0 / 1. -/
def cmpCI : List Char → List Char → Ordering
  | [], [] => .eq
  | [], _ :: _ => .lt
  | _ :: _, [] => .gt
  | a :: as, b :: bs =>
    if a.toLower.toNat < b.toLower.toNat then .lt
    else if b.toLower.toNat < a.toLower.toNat then .gt
    else cmpCI as bs

/-- Modelled from the spec: three-way localeCompare on strings (see cmpCI). -/
def localeCompare (a b : String) : Int :=
  match cmpCI a.data b.data with
  | .lt => -1
  | .eq => 0
  | .gt => 1

/-- Direction toggle of sortImages: sortOrder === "asc" ? "desc" : "asc". -/
def toggle : SortDir → SortDir
  | .asc => .desc
  | .desc => .asc

/-- Keep-in-order predicate derived from the sort comparator of the source:
ascending compares a then b, descending compares b then a; a pair is in
order when the comparator is ≤ 0. -/
def sortLe (dir : SortDir) (a b : Preview) : Bool :=
  match dir with
  | .asc => decide (localeCompare a.name b.name ≤ 0)
  | .desc => decide (localeCompare b.name a.name ≤ 0)

/-- sortImages: toggle the stored direction, stably sort the previews by
name with the comparator for the new direction (JS Array.prototype.sort is
stable; embedded as the stable mergeSort), and rebuild files as the file
projection of the sorted previews. -/
def sortImages (st : State) : State :=
  let newOrder := toggle st.sortOrder
  let sortedPreviews := st.previews.mergeSort (sortLe newOrder)
  { st with
    sortOrder := newOrder
    previews := sortedPreviews
    files := sortedPreviews.map (·.file) }

/-- Page of the output document: the images placed on it, in order. -/
abbrev Page := List Placement

/-- Output document: its pages in order; jsPDF creates the first page with
the document. -/
abbrev Doc := List Page

/-- pdf.addImage lands on the current (last) page. -/
def placeOnLast : Doc → Placement → Doc
  | [], p => [[p]]
  | [pg], p => [pg ++ [p]]
  | pg :: pgs, p => pg :: placeOnLast pgs p

/-- Conversion loop of generatePDF: for each file, addPage when the index
is positive, then addImage with the computed placement. -/
def genLoop (cfg : Config) : List ImgFile → Nat → Doc → Doc
  | [], _, doc => doc
  | f :: fs, i, doc =>
    let doc1 := if i > 0 then doc ++ [[]] else doc
    genLoop cfg fs (i + 1) (placeOnLast doc1 (computePlacement cfg f))

/-- generatePDF: with no files it alerts and returns before touching any
state and creates no document; otherwise it runs the loop on a fresh
one-page document and, after the save, leaves isConverting false and
progress 0 while never writing files or previews. Asynchronous decoding
and the save delay carry no semantic weight and are not modelled. -/
def generatePDF (st : State) (cfg : Config) : State × Except String Doc :=
  if st.files.length = 0 then
    (st, .error "Please select one or more image files.")
  else
    ({ st with isConverting := false, progress := 0 },
     .ok (genLoop cfg st.files 0 [[]]))

/-! Helper lemmas about the embedded operations. -/

/-- Concrete accepted JPEG file (the 960 by 1280 image of the spec
scenario). -/
def fileJpg : ImgFile :=
  { name := "a.jpg", type := "image/jpeg", size := 5, widthPx := 960, heightPx := 1280 }

/-- Concrete accepted PNG file. -/
def filePng : ImgFile :=
  { name := "b.png", type := "image/png", size := 4, widthPx := 10, heightPx := 20 }

/-- Concrete accepted GIF file. -/
def fileGif : ImgFile :=
  { name := "c.gif", type := "image/gif", size := 3, widthPx := 10, heightPx := 10 }

/-- Concrete rejected non-image file. -/
def fileTxt : ImgFile :=
  { name := "notes.txt", type := "text/plain", size := 7, widthPx := 0, heightPx := 0 }

/-- Preview of fileJpg with handle 0. -/
def prevJpg : Preview := { name := "a.jpg", url := 0, file := fileJpg, id := 0 }

/-- Preview of filePng with handle 1. -/
def prevPng : Preview := { name := "b.png", url := 1, file := filePng, id := 1 }

/-- Session state holding one entry. -/
def stOne : State :=
  { files := [fileJpg], previews := [prevJpg], sortOrder := .asc,
    nextHandle := 1, revoked := [], isConverting := false, progress := 0 }

/-- Session state holding two entries, default ascending sort direction. -/
def stTwo : State :=
  { files := [fileJpg, filePng], previews := [prevJpg, prevPng], sortOrder := .asc,
    nextHandle := 2, revoked := [], isConverting := false, progress := 0 }

/-- Empty session state. -/
def stEmpty : State :=
  { files := [], previews := [], sortOrder := .asc,
    nextHandle := 0, revoked := [], isConverting := false, progress := 0 }

/-- Default layout configuration of the component with the fit policy. -/
def cfgFit : Config :=
  { pageSize := .a4, orientation := .portrait, imageSize := .fit, margin := 10 }

/-- Default layout configuration with the fill policy. -/
def cfgFill : Config :=
  { pageSize := .a4, orientation := .portrait, imageSize := .fill, margin := 10 }

/-! Claim theorems. -/

/-- Behaviour of removeImage at a valid index: the URL of the removed preview is
the one revoked, both lists lose exactly the entry at that position with
later entries shifted left, and every out-of-range index makes the
operation fail (the TypeError) rather than act as a silent no-op. -/
def RemoveSpec (st : State) (index : Nat) : Prop :=
  (∃ p, st.previews[index]? = some p ∧
    removeImage st index = some { st with
      revoked := st.revoked ++ [p.url]
      previews := st.previews.eraseIdx index
      files := st.files.eraseIdx index }) ∧
  (st.previews.eraseIdx index).length = st.previews.length - 1 ∧
  (∀ k, k < index → (st.previews.eraseIdx index)[k]? = st.previews[k]?) ∧
  (∀ k, index ≤ k → (st.previews.eraseIdx index)[k]? = st.previews[k + 1]?) ∧
  (∀ m, st.previews.length ≤ m → removeImage st m = none)

/-- Move semantics of one splice pair on a list: the element at i is
removed and reinserted at j, the length is unchanged, the moved element
sits at j, and erasing it there recovers the erase-at-i list (so no other
other element changes its relative order). -/
def MoveSpec {α : Type} (l : List α) (i j : Nat) : Prop :=
  ∃ x m, l[i]? = some x ∧ spliceMove l i j = some m ∧
    m = (l.eraseIdx i).insertIdx j x ∧
    m.length = l.length ∧ m[j]? = some x ∧ m.eraseIdx j = l.eraseIdx i

/-- Joint effect of reorderImages on the state: both parallel lists
undergo the same move, and the rest of the state is untouched. -/
def ReorderSpec (st : State) (i j : Nat) : Prop :=
  MoveSpec st.previews i j ∧ MoveSpec st.files i j ∧
  ∃ st', reorderImages st i j = some st' ∧
    (∀ m, spliceMove st.previews i j = some m → st'.previews = m) ∧
    (∀ m, spliceMove st.files i j = some m → st'.files = m) ∧
    st'.sortOrder = st.sortOrder ∧ st'.revoked = st.revoked

/-- Lockstep invariant of the session state: the file underlying each
preview, position by position, is exactly the parallel raw-file list. -/
def Aligned (st : State) : Prop := st.previews.map (·.file) = st.files

/-- Consequences of alignment for every session operation. -/
def LockstepSpec (st : State) : Prop :=
  (∀ input, Aligned (handleFiles st input)) ∧
  (∀ index st', removeImage st index = some st' → Aligned st') ∧
  (∀ i j st', reorderImages st i j = some st' → Aligned st') ∧
  Aligned (sortImages st) ∧
  Aligned (clear st) ∧
  st.previews.length = st.files.length ∧
  (∀ k : Nat, (st.previews[k]?).map (·.file) = st.files[k]?)

/-- imgWmm local of generatePDF: image width in millimetres. -/
def imgWmm (f : ImgFile) : ℚ := (f.widthPx : ℚ) * pxToMm

/-- imgHmm local of generatePDF: image height in millimetres. -/
def imgHmm (f : ImgFile) : ℚ := (f.heightPx : ℚ) * pxToMm

/-- ratio local of the fit branch: min of the two extents and 1. -/
def fitRatio (cfg : Config) (f : ImgFile) : ℚ :=
  min (min (maxW cfg / imgWmm f) (maxH cfg / imgHmm f)) 1

/-- fillRatio local of the fill branch: max of the two extents. -/
def fillRatio (cfg : Config) (f : ImgFile) : ℚ :=
  max (maxW cfg / imgWmm f) (maxH cfg / imgHmm f)

/-- Fit-policy placement contract: the scale is the min formula and at
most 1 (never upscaling), the final extents are the scaled millimetre
extents, and the image is centered on the page with nonnegative offsets. -/
def FitSpec (cfg : Config) (f : ImgFile) : Prop :=
  fitRatio cfg f ≤ 1 ∧
  (computePlacement cfg f).w = imgWmm f * fitRatio cfg f ∧
  (computePlacement cfg f).h = imgHmm f * fitRatio cfg f ∧
  (computePlacement cfg f).x = (pageWidth cfg - (computePlacement cfg f).w) / 2 ∧
  (computePlacement cfg f).y = (pageHeight cfg - (computePlacement cfg f).h) / 2 ∧
  0 ≤ (computePlacement cfg f).x ∧ 0 ≤ (computePlacement cfg f).y

/-- Fill-policy placement contract: the scale is the max formula, the
placed extents cover the printable area, and the image is centered; the
pipeline emits the uncut extents (no clipping of its own). -/
def FillSpec (cfg : Config) (f : ImgFile) : Prop :=
  (computePlacement cfg f).w = imgWmm f * fillRatio cfg f ∧
  (computePlacement cfg f).h = imgHmm f * fillRatio cfg f ∧
  maxW cfg ≤ (computePlacement cfg f).w ∧
  maxH cfg ≤ (computePlacement cfg f).h ∧
  (computePlacement cfg f).x = (pageWidth cfg - (computePlacement cfg f).w) / 2 ∧
  (computePlacement cfg f).y = (pageHeight cfg - (computePlacement cfg f).h) / 2

/-- Page-count contract of generatePDF: the produced document is one
single-image page per entry, in entry order. -/
def GenSpec (st : State) (cfg : Config) : Prop :=
  (generatePDF st cfg).2
    = Except.ok (st.files.map (fun f => [computePlacement cfg f])) ∧
  (st.files.map (fun f => [computePlacement cfg f])).length = st.files.length ∧
  ∀ i : Nat, (st.files.map (fun f => [computePlacement cfg f]))[i]?
    = (st.files[i]?).map (fun f => [computePlacement cfg f])

/-- Empty-input contract of generatePDF: the state is returned untouched,
the user-facing empty-selection notice is raised, and no document of any
shape is produced. -/
def EmptyGenSpec (st : State) (cfg : Config) : Prop :=
  generatePDF st cfg = (st, Except.error "Please select one or more image files.") ∧
  ∀ doc : Doc, (generatePDF st cfg).2 ≠ Except.ok doc

/-- Behaviour of one and two invocations of sortImages: the stored
direction toggles each time, each invocation is a permutation sorted by
the comparator for the direction just toggled to, the files list follows
the sorted previews, and equal names keep their prior relative order. -/
def SortSpec (st : State) : Prop :=
  (sortImages st).sortOrder = toggle st.sortOrder ∧
  (sortImages st).previews.Perm st.previews ∧
  List.Pairwise (fun a b => sortLe (toggle st.sortOrder) a b = true)
    (sortImages st).previews ∧
  (sortImages (sortImages st)).sortOrder = st.sortOrder ∧
  (sortImages (sortImages st)).previews.Perm st.previews ∧
  List.Pairwise (fun a b => sortLe st.sortOrder a b = true)
    (sortImages (sortImages st)).previews ∧
  (sortImages st).files = (sortImages st).previews.map (·.file) ∧
  ∀ n : String, (sortImages st).previews.filter (fun p => p.name == n)
    = st.previews.filter (fun p => p.name == n)

/-- Previews built by handleFiles project back to exactly the chosen files. -/
theorem mkPreviews_map_file : ∀ (fs : List ImgFile) (h : Nat),
    (mkPreviews fs h).map (·.file) = fs
  | [], _ => rfl
  | f :: fs, h => by simp [mkPreviews, mkPreviews_map_file fs (h + 1)]

/-- Index-based erasure commutes with map. -/
theorem map_eraseIdx_comm {α β : Type} (f : α → β) :
    ∀ (l : List α) (i : Nat), (l.eraseIdx i).map f = (l.map f).eraseIdx i
  | [], _ => by simp
  | _ :: _, 0 => by simp
  | a :: as, i + 1 => by
    simp [List.eraseIdx_cons_succ, map_eraseIdx_comm f as i]

/-- Index-based insertion commutes with map. -/
theorem map_insertIdx_comm {α β : Type} (f : α → β) :
    ∀ (n : Nat) (a : α) (l : List α),
      (l.insertIdx n a).map f = (l.map f).insertIdx n (f a)
  | 0, a, l => by simp
  | n + 1, a, [] => by simp
  | n + 1, a, x :: xs => by
    simp [List.insertIdx_succ_cons, map_insertIdx_comm f n a xs]

/-- Positions strictly below the counter are never filtered out. -/
theorem filterOutFrom_high {α : Type} (idx : Nat) :
    ∀ (i : Nat) (l : List α), idx < i → filterOutFrom idx i l = l
  | _, [], _ => rfl
  | i, a :: as, h => by
    simp only [filterOutFrom]
    rw [if_neg (by omega), filterOutFrom_high idx (i + 1) as (by omega)]

/-- Shifting both the target index and the counter leaves the filter alone. -/
theorem filterOutFrom_shift {α : Type} :
    ∀ (idx i : Nat) (l : List α),
      filterOutFrom (idx + 1) (i + 1) l = filterOutFrom idx i l
  | _, _, [] => rfl
  | idx, i, a :: as => by
    simp only [filterOutFrom]
    rw [filterOutFrom_shift idx (i + 1) as]
    by_cases h : i = idx
    · rw [if_pos (by omega), if_pos h]
    · rw [if_neg (by omega), if_neg h]

/-- The positional filter of removeImage is exactly List.eraseIdx. -/
theorem filterOutIdx_eq_eraseIdx {α : Type} :
    ∀ (l : List α) (idx : Nat), filterOutIdx l idx = l.eraseIdx idx
  | [], _ => rfl
  | a :: as, 0 => by
    simp only [filterOutIdx, filterOutFrom, if_pos rfl, List.eraseIdx_cons_zero]
    exact filterOutFrom_high 0 1 as (by omega)
  | a :: as, idx + 1 => by
    simp only [filterOutIdx, filterOutFrom, List.eraseIdx_cons_succ]
    rw [if_neg (by omega), filterOutFrom_shift idx 0 as]
    exact congrArg (a :: ·) (filterOutIdx_eq_eraseIdx as idx)

/-- Adding an image to a document with an explicit last page appends to
that page. -/
theorem placeOnLast_append : ∀ (xs : Doc) (pg : Page) (p : Placement),
    placeOnLast (xs ++ [pg]) p = xs ++ [pg ++ [p]]
  | [], _, _ => rfl
  | [_], _, _ => rfl
  | x :: y :: xs, pg, p => by
    have ih := placeOnLast_append (y :: xs) pg p
    simp only [List.cons_append] at ih ⊢
    rw [show placeOnLast (x :: y :: (xs ++ [pg])) p
        = x :: placeOnLast (y :: (xs ++ [pg])) p from rfl, ih]

/-- After the first iteration, each remaining file contributes exactly one
fresh single-image page. -/
theorem genLoop_pos (cfg : Config) :
    ∀ (fs : List ImgFile) (i : Nat), 0 < i → ∀ (doc : Doc),
      genLoop cfg fs i doc = doc ++ fs.map (fun f => [computePlacement cfg f])
  | [], _, _, doc => by simp [genLoop]
  | f :: fs, i, hi, doc => by
    simp only [genLoop, if_pos hi]
    rw [placeOnLast_append doc [] (computePlacement cfg f),
      genLoop_pos cfg fs (i + 1) (by omega) (doc ++ [[] ++ [computePlacement cfg f]])]
    simp

/-- Swapping the arguments of the comparison swaps the result. -/
theorem cmpCI_swap : ∀ (a b : List Char), cmpCI b a = (cmpCI a b).swap
  | [], [] => rfl
  | [], _ :: _ => rfl
  | _ :: _, [] => rfl
  | a :: as, b :: bs => by
    simp only [cmpCI]
    rcases Nat.lt_trichotomy a.toLower.toNat b.toLower.toNat with h | h | h
    · rw [if_pos h, if_neg (by omega), if_pos h]; rfl
    · rw [if_neg (by omega), if_neg (by omega), if_neg (by omega),
        if_neg (by omega)]
      exact cmpCI_swap as bs
    · rw [if_pos h, if_neg (by omega), if_pos h]; rfl

/-- Comparing a list with itself yields eq. -/
theorem cmpCI_self : ∀ (a : List Char), cmpCI a a = .eq
  | [] => rfl
  | a :: as => by
    simp only [cmpCI]
    rw [if_neg (by omega), if_neg (by omega)]
    exact cmpCI_self as

/-- Transitivity of the not-greater relation of the comparison. -/
theorem cmpCI_trans_ngt : ∀ (a b c : List Char),
    cmpCI a b ≠ .gt → cmpCI b c ≠ .gt → cmpCI a c ≠ .gt
  | [], b, c, _, _ => by
    cases c <;> simp [cmpCI]
  | _ :: _, [], _, h1, _ => by
    simp [cmpCI] at h1
  | _ :: _, _ :: _, [], _, h2 => by
    simp [cmpCI] at h2
  | a :: as, b :: bs, c :: cs, h1, h2 => by
    simp only [cmpCI] at h1 h2 ⊢
    by_cases hab : a.toLower.toNat < b.toLower.toNat
    · by_cases hbc : b.toLower.toNat < c.toLower.toNat
      · rw [if_pos (by omega)]; simp
      · rw [if_neg (by omega)] at h2
        by_cases hcb : c.toLower.toNat < b.toLower.toNat
        · rw [if_pos hcb] at h2; simp at h2
        · rw [if_neg hcb] at h2
          rw [if_pos (by omega)]; simp
    · rw [if_neg hab] at h1
      by_cases hba : b.toLower.toNat < a.toLower.toNat
      · rw [if_pos hba] at h1; simp at h1
      · rw [if_neg hba] at h1
        by_cases hbc : b.toLower.toNat < c.toLower.toNat
        · rw [if_pos (by omega)]; simp
        · rw [if_neg hbc] at h2
          by_cases hcb : c.toLower.toNat < b.toLower.toNat
          · rw [if_pos hcb] at h2; simp at h2
          · rw [if_neg hcb] at h2
            rw [if_neg (by omega), if_neg (by omega)]
            exact cmpCI_trans_ngt as bs cs h1 h2

/-- localeCompare is nonpositive exactly when the comparison is not gt. -/
theorem localeCompare_nonpos_iff (a b : String) :
    localeCompare a b ≤ 0 ↔ cmpCI a.data b.data ≠ .gt := by
  unfold localeCompare
  rcases h : cmpCI a.data b.data <;> simp [h]

/-- Totality of the keep-in-order predicate of sortImages. -/
theorem sortLe_total (dir : SortDir) (a b : Preview) :
    (sortLe dir a b || sortLe dir b a) = true := by
  have key : localeCompare a.name b.name ≤ 0 ∨ localeCompare b.name a.name ≤ 0 := by
    rcases h : cmpCI a.name.data b.name.data
    · exact Or.inl ((localeCompare_nonpos_iff _ _).2 (by simp [h]))
    · exact Or.inl ((localeCompare_nonpos_iff _ _).2 (by simp [h]))
    · refine Or.inr ((localeCompare_nonpos_iff _ _).2 ?_)
      rw [cmpCI_swap, h]
      simp [Ordering.swap]
  cases dir <;> rcases key with h | h <;> simp [sortLe, h]

/-- Transitivity of the keep-in-order predicate of sortImages. -/
theorem sortLe_trans (dir : SortDir) (a b c : Preview) :
    sortLe dir a b = true → sortLe dir b c = true → sortLe dir a c = true := by
  cases dir <;>
    simp only [sortLe, decide_eq_true_eq, localeCompare_nonpos_iff] <;>
    intro h1 h2
  · exact cmpCI_trans_ngt _ _ _ h1 h2
  · exact cmpCI_trans_ngt _ _ _ h2 h1

/-! Concrete fixtures used by witnesses and counterexamples. -/

/-- C4: handleFiles appends exactly the subset of the input whose MIME type
is one of the four accepted image types, in original relative order, after
the existing entries, never replacing them; all other files are silently
dropped (the operation is total and has no error channel), and the new
previews are built from exactly the chosen files. -/
theorem handleFiles_filter_append (st : State) (input : List ImgFile) :
    (handleFiles st input).files = st.files ++ input.filter acceptType ∧
    (input.filter acceptType).Sublist input ∧
    (∀ f, f ∈ input.filter acceptType ↔ f ∈ input ∧ acceptType f = true) ∧
    (handleFiles st input).previews
      = st.previews ++ mkPreviews (input.filter acceptType) st.nextHandle ∧
    (mkPreviews (input.filter acceptType) st.nextHandle).map (·.file)
      = input.filter acceptType :=
  ⟨rfl, List.filter_sublist _, fun _ => List.mem_filter, rfl,
    mkPreviews_map_file _ _⟩

/-- C9: for every file passing the accept filter, the encoder tag is PNG
for image/png, WEBP for image/webp, and JPEG otherwise, so image/jpeg and
image/gif both fall through to JPEG. -/
theorem typeTag_of_accepted (f : ImgFile) (h : acceptType f = true) :
    typeTag f.type = if f.type = "image/png" then "PNG"
      else if f.type = "image/webp" then "WEBP" else "JPEG" := by
  simp only [acceptType, Bool.or_eq_true, beq_iff_eq] at h
  rcases h with ((h | h) | h) | h <;> rw [h] <;> decide

/-- Witness for C9 at the GIF input: it is accepted yet tagged JPEG. -/
theorem typeTag_of_accepted_witness :
    acceptType fileGif = true ∧
    (typeTag fileGif.type = if fileGif.type = "image/png" then "PNG"
      else if fileGif.type = "image/webp" then "WEBP" else "JPEG") ∧
    typeTag fileGif.type = "JPEG" :=
  ⟨by decide, typeTag_of_accepted fileGif (by decide), by decide⟩

/-- C2 (amended): removeImage performs no bounds check; at every valid
index it releases exactly the previewHandle of the removed entry and shifts the
later entries left, and at every out-of-range index it throws (reading
previews[index].url of undefined) instead of being a defensive no-op. -/
theorem removeImage_spec (st : State) (index : Nat)
    (h : index < st.previews.length) : RemoveSpec st index := by
  refine ⟨⟨st.previews[index], List.getElem?_eq_getElem h, ?_⟩, ?_, ?_, ?_, ?_⟩
  · simp only [removeImage, List.getElem?_eq_getElem h, filterOutIdx_eq_eraseIdx]
  · rw [List.length_eraseIdx, if_pos h]
  · exact fun k hk => List.getElem?_eraseIdx_of_lt _ _ _ hk
  · exact fun k hk => List.getElem?_eraseIdx_of_ge _ _ _ hk
  · intro m hm
    simp only [removeImage, List.getElem?_eq_none hm]

/-- Witness for C2 (amended) on the one-entry state at index 0. -/
theorem removeImage_spec_witness :
    0 < stOne.previews.length ∧ RemoveSpec stOne 0 :=
  ⟨by decide, removeImage_spec stOne 0 (by decide)⟩

/-- C2 counterexample: on the one-entry state, index 3 is out of range and
removeImage fails (the modelled TypeError from reading previews[3].url of
undefined); it does not leave the state unchanged without error as the
claim states. -/
theorem removeImage_oob_cex :
    stOne.previews.length = 1 ∧ removeImage stOne 3 = none ∧
    ¬ removeImage stOne 3 = some stOne := by decide

/-- The splice pair of reorderImages realises the remove-and-reinsert move
on any list at in-range indices. -/
theorem spliceMove_spec {α : Type} (l : List α) (i j : Nat)
    (hi : i < l.length) (hj : j < l.length) : MoveSpec l i j := by
  have hlen : (l.eraseIdx i).length = l.length - 1 := by
    rw [List.length_eraseIdx, if_pos hi]
  have hj' : j ≤ (l.eraseIdx i).length := by omega
  have hmin : min j (l.eraseIdx i).length = j := min_eq_left hj'
  refine ⟨l[i], (l.eraseIdx i).insertIdx j l[i],
    List.getElem?_eq_getElem hi, ?_, rfl, ?_, ?_, ?_⟩
  · simp only [spliceMove, List.getElem?_eq_getElem hi, hmin]
  · rw [List.length_insertIdx j _ hj']
    omega
  · have hjlt : j < ((l.eraseIdx i).insertIdx j l[i]).length := by
      rw [List.length_insertIdx j _ hj']
      omega
    rw [List.getElem?_eq_getElem hjlt, List.getElem_insertIdx_self _ _ _ hj']
  · exact List.eraseIdx_insertIdx j _

/-- C6: at in-range indices i and j, reorderImages removes the entry at i
and reinserts it at j in both parallel lists (a move, not a swap); the
length is unchanged and erasing the moved entry from the result recovers
the original list minus that entry, so all other relative order is
preserved. -/
theorem reorderImages_move_spec (st : State) (i j : Nat)
    (hp : i < st.previews.length) (hq : j < st.previews.length)
    (hf : i < st.files.length) (hg : j < st.files.length) :
    ReorderSpec st i j := by
  obtain ⟨x, m, hx, hm, hrest⟩ := spliceMove_spec st.previews i j hp hq
  obtain ⟨y, n, hy, hn, hrest2⟩ := spliceMove_spec st.files i j hf hg
  refine ⟨⟨x, m, hx, hm, hrest⟩, ⟨y, n, hy, hn, hrest2⟩,
    { st with previews := m, files := n }, ?_, ?_, ?_, rfl, rfl⟩
  · simp only [reorderImages, hm, hn]
  · intro m2 hm2
    rw [hm] at hm2
    exact Option.some_inj.1 hm2
  · intro n2 hn2
    rw [hn] at hn2
    exact Option.some_inj.1 hn2

/-- Witness for C6 on the two-entry state, moving entry 0 to position 1. -/
theorem reorderImages_move_spec_witness :
    0 < stTwo.previews.length ∧ 1 < stTwo.previews.length ∧
    0 < stTwo.files.length ∧ 1 < stTwo.files.length ∧ ReorderSpec stTwo 0 1 :=
  ⟨by decide, by decide, by decide, by decide,
    reorderImages_move_spec stTwo 0 1 (by decide) (by decide) (by decide) (by decide)⟩

/-- Splicing a mapped list is the mapped splice. -/
theorem spliceMove_map {α β : Type} (g : α → β) (l : List α) (i j : Nat) :
    spliceMove (l.map g) i j = Option.map (List.map g) (spliceMove l i j) := by
  rcases hq : l[i]? with _ | x
  · have : (l.map g)[i]? = none := by
      rw [List.getElem?_map, hq]
      rfl
    simp only [spliceMove, hq, this, Option.map_none']
  · have hx : (l.map g)[i]? = some (g x) := by
      rw [List.getElem?_map, hq]
      rfl
    simp only [spliceMove, hq, hx, Option.map_some']
    rw [← map_eraseIdx_comm, ← map_insertIdx_comm, List.length_map]

/-- C10: from any aligned state, every operation (handleFiles, removeImage
at a valid index, reorderImages, sortImages, clear) yields an aligned
state again — both lists keep equal length and the i-th preview always
references the i-th raw file — and each operation is a single state
transition by construction. -/
theorem lockstep_invariant (st : State) (h : Aligned st) : LockstepSpec st := by
  refine ⟨?_, ?_, ?_, rfl, rfl, ?_, ?_⟩
  · intro input
    show (st.previews ++ mkPreviews (input.filter acceptType) st.nextHandle).map (·.file)
      = st.files ++ input.filter acceptType
    rw [List.map_append, h, mkPreviews_map_file]
  · intro index st' hst
    rcases hq : st.previews[index]? with _ | p
    · simp only [removeImage, hq] at hst
      exact absurd hst (by simp)
    · simp only [removeImage, hq] at hst
      obtain rfl := Option.some_inj.1 hst
      show (filterOutIdx st.previews index).map (·.file) = filterOutIdx st.files index
      rw [filterOutIdx_eq_eraseIdx, filterOutIdx_eq_eraseIdx,
        map_eraseIdx_comm, h]
  · intro i j st' hst
    have hmap := spliceMove_map (·.file) st.previews i j
    rw [h] at hmap
    rcases hq : spliceMove st.previews i j with _ | ps
    · rw [hq, Option.map_none'] at hmap
      simp only [reorderImages, hq, hmap] at hst
      exact absurd hst (by simp)
    · rw [hq, Option.map_some'] at hmap
      simp only [reorderImages, hq, hmap] at hst
      obtain rfl := Option.some_inj.1 hst
      rfl
  · rw [← h, List.length_map]
  · intro k
    rw [← h, List.getElem?_map]

/-- Witness for C10 on the concrete aligned two-entry state. -/
theorem lockstep_invariant_witness : Aligned stTwo ∧ LockstepSpec stTwo :=
  ⟨rfl, lockstep_invariant stTwo rfl⟩

/-- Toggling the direction twice returns to the original direction. -/
theorem toggle_toggle (d : SortDir) : toggle (toggle d) = d := by
  cases d <;> rfl

/-- C1: for the fit policy, every image with positive pixel dimensions and
every page size, orientation and margin in [0, 50] gets scale
min(maxW/imgWmm, maxH/imgHmm, 1) ≤ 1, is centered, and both offsets are
nonnegative when the margin is at most half of each page dimension. -/
theorem fit_placement_spec (cfg : Config) (f : ImgFile)
    (hpol : cfg.imageSize = ImageSize.fit)
    (hw : 0 < f.widthPx) (hh : 0 < f.heightPx)
    (hm0 : 0 ≤ cfg.margin) (_hm50 : cfg.margin ≤ 50)
    (_hmw : cfg.margin ≤ pageWidth cfg / 2)
    (_hmh : cfg.margin ≤ pageHeight cfg / 2) :
    FitSpec cfg f := by
  have hpx : (0:ℚ) < pxToMm := by norm_num [pxToMm]
  have hW : 0 < imgWmm f := mul_pos (by exact_mod_cast hw) hpx
  have hH : 0 < imgHmm f := mul_pos (by exact_mod_cast hh) hpx
  have hplace : computePlacement cfg f =
      { image := f, tag := typeTag f.type,
        x := (pageWidth cfg - imgWmm f * fitRatio cfg f) / 2,
        y := (pageHeight cfg - imgHmm f * fitRatio cfg f) / 2,
        w := imgWmm f * fitRatio cfg f, h := imgHmm f * fitRatio cfg f } := by
    simp only [computePlacement, hpol]
    rfl
  have hr1 : fitRatio cfg f ≤ maxW cfg / imgWmm f :=
    le_trans (min_le_left _ _) (min_le_left _ _)
  have hr2 : fitRatio cfg f ≤ maxH cfg / imgHmm f :=
    le_trans (min_le_left _ _) (min_le_right _ _)
  have hwle : imgWmm f * fitRatio cfg f ≤ maxW cfg := by
    have := mul_le_mul_of_nonneg_left hr1 hW.le
    rwa [mul_comm (imgWmm f) (maxW cfg / imgWmm f),
      div_mul_cancel₀ _ (ne_of_gt hW)] at this
  have hhle : imgHmm f * fitRatio cfg f ≤ maxH cfg := by
    have := mul_le_mul_of_nonneg_left hr2 hH.le
    rwa [mul_comm (imgHmm f) (maxH cfg / imgHmm f),
      div_mul_cancel₀ _ (ne_of_gt hH)] at this
  have hmaxW : maxW cfg ≤ pageWidth cfg := by
    unfold maxW
    linarith
  have hmaxH : maxH cfg ≤ pageHeight cfg := by
    unfold maxH
    linarith
  refine ⟨min_le_right _ _, ?_, ?_, ?_, ?_, ?_, ?_⟩
  · rw [hplace]
  · rw [hplace]
  · rw [hplace]
  · rw [hplace]
  · rw [hplace]
    exact div_nonneg (by linarith) (by norm_num)
  · rw [hplace]
    exact div_nonneg (by linarith) (by norm_num)

/-- Witness for C1 on the default configuration (A4 portrait, fit, 10mm)
and the 960 by 1280 pixel JPEG of the spec scenario. -/
theorem fit_placement_spec_witness :
    cfgFit.imageSize = ImageSize.fit ∧ 0 < fileJpg.widthPx ∧ 0 < fileJpg.heightPx ∧
    (0:ℚ) ≤ cfgFit.margin ∧ cfgFit.margin ≤ 50 ∧
    cfgFit.margin ≤ pageWidth cfgFit / 2 ∧ cfgFit.margin ≤ pageHeight cfgFit / 2 ∧
    FitSpec cfgFit fileJpg :=
  ⟨rfl, by decide, by decide,
    by rw [show cfgFit.margin = 10 from rfl]; norm_num,
    by rw [show cfgFit.margin = 10 from rfl]; norm_num,
    by rw [show cfgFit.margin = 10 from rfl, show pageWidth cfgFit = 210 from rfl]; norm_num,
    by rw [show cfgFit.margin = 10 from rfl, show pageHeight cfgFit = 297 from rfl]; norm_num,
    fit_placement_spec cfgFit fileJpg rfl (by decide) (by decide)
      (by rw [show cfgFit.margin = 10 from rfl]; norm_num)
      (by rw [show cfgFit.margin = 10 from rfl]; norm_num)
      (by rw [show cfgFit.margin = 10 from rfl, show pageWidth cfgFit = 210 from rfl]; norm_num)
      (by rw [show cfgFit.margin = 10 from rfl, show pageHeight cfgFit = 297 from rfl]; norm_num)⟩

/-- C7: for the fill policy, every image with positive dimensions and a
positive printable area is scaled by max(maxW/imgWmm, maxH/imgHmm), covers
the printable area in both extents, and is centered; the computed extents
are passed through unclipped. -/
theorem fill_placement_spec (cfg : Config) (f : ImgFile)
    (hpol : cfg.imageSize = ImageSize.fill)
    (hw : 0 < f.widthPx) (hh : 0 < f.heightPx)
    (_hmW : 0 < maxW cfg) (_hmH : 0 < maxH cfg) :
    FillSpec cfg f := by
  have hpx : (0:ℚ) < pxToMm := by norm_num [pxToMm]
  have hW : 0 < imgWmm f := mul_pos (by exact_mod_cast hw) hpx
  have hH : 0 < imgHmm f := mul_pos (by exact_mod_cast hh) hpx
  have hplace : computePlacement cfg f =
      { image := f, tag := typeTag f.type,
        x := (pageWidth cfg - imgWmm f * fillRatio cfg f) / 2,
        y := (pageHeight cfg - imgHmm f * fillRatio cfg f) / 2,
        w := imgWmm f * fillRatio cfg f, h := imgHmm f * fillRatio cfg f } := by
    simp only [computePlacement, hpol]
    rfl
  have hr1 : maxW cfg / imgWmm f ≤ fillRatio cfg f := le_max_left _ _
  have hr2 : maxH cfg / imgHmm f ≤ fillRatio cfg f := le_max_right _ _
  have hwge : maxW cfg ≤ imgWmm f * fillRatio cfg f := by
    have := mul_le_mul_of_nonneg_left hr1 hW.le
    rwa [mul_comm (imgWmm f) (maxW cfg / imgWmm f),
      div_mul_cancel₀ _ (ne_of_gt hW)] at this
  have hhge : maxH cfg ≤ imgHmm f * fillRatio cfg f := by
    have := mul_le_mul_of_nonneg_left hr2 hH.le
    rwa [mul_comm (imgHmm f) (maxH cfg / imgHmm f),
      div_mul_cancel₀ _ (ne_of_gt hH)] at this
  refine ⟨?_, ?_, ?_, ?_, ?_, ?_⟩ <;> rw [hplace]
  · exact hwge
  · exact hhge

/-- Witness for C7 on A4 portrait fill with the 960 by 1280 pixel JPEG. -/
theorem fill_placement_spec_witness :
    cfgFill.imageSize = ImageSize.fill ∧ 0 < fileJpg.widthPx ∧ 0 < fileJpg.heightPx ∧
    0 < maxW cfgFill ∧ 0 < maxH cfgFill ∧ FillSpec cfgFill fileJpg :=
  ⟨rfl, by decide, by decide,
    by show (0:ℚ) < pageWidth cfgFill - cfgFill.margin * 2
       rw [show cfgFill.margin = 10 from rfl, show pageWidth cfgFill = 210 from rfl]
       norm_num,
    by show (0:ℚ) < pageHeight cfgFill - cfgFill.margin * 2
       rw [show cfgFill.margin = 10 from rfl, show pageHeight cfgFill = 297 from rfl]
       norm_num,
    fill_placement_spec cfgFill fileJpg rfl (by decide) (by decide)
      (by show (0:ℚ) < pageWidth cfgFill - cfgFill.margin * 2
          rw [show cfgFill.margin = 10 from rfl, show pageWidth cfgFill = 210 from rfl]
          norm_num)
      (by show (0:ℚ) < pageHeight cfgFill - cfgFill.margin * 2
          rw [show cfgFill.margin = 10 from rfl, show pageHeight cfgFill = 297 from rfl]
          norm_num)⟩

/-- C5: on a non-empty entry collection of length n, generatePDF yields a
document of exactly n pages in entry order; the first entry lands on the
already-created first page and each later entry adds exactly one new page
holding only the image of that entry. -/
theorem generatePDF_page_count (st : State) (cfg : Config)
    (h : st.files ≠ []) : GenSpec st cfg := by
  refine ⟨?_, List.length_map _ _, fun i => List.getElem?_map _ _ _⟩
  rcases hsf : st.files with _ | ⟨f, fs⟩
  · exact absurd hsf h
  · have hlen : st.files.length ≠ 0 := by
      rw [hsf]
      simp
    simp only [generatePDF, if_neg hlen]
    rw [hsf]
    show Except.ok (genLoop cfg (f :: fs) 0 [[]]) = _
    rw [show genLoop cfg (f :: fs) 0 [[]]
        = genLoop cfg fs 1 (placeOnLast [[]] (computePlacement cfg f)) from rfl,
      show placeOnLast [[]] (computePlacement cfg f)
        = [[computePlacement cfg f]] from rfl,
      genLoop_pos cfg fs 1 (by omega)]
    simp

/-- Witness for C5 on the two-entry state with the default fit config. -/
theorem generatePDF_page_count_witness :
    stTwo.files ≠ [] ∧ GenSpec stTwo cfgFit :=
  ⟨by decide, generatePDF_page_count stTwo cfgFit (by decide)⟩

/-- C8: invoked with zero entries, generatePDF creates no document,
produces no partial file, leaves the session state unchanged, and signals
the empty-selection notice. -/
theorem generatePDF_empty_spec (st : State) (cfg : Config)
    (h : st.files = []) : EmptyGenSpec st cfg := by
  have hlen : st.files.length = 0 := by
    rw [h]
    rfl
  refine ⟨by simp only [generatePDF, if_pos hlen], ?_⟩
  intro doc
  simp only [generatePDF, if_pos hlen]
  simp

/-- Witness for C8 on the empty session state. -/
theorem generatePDF_empty_spec_witness :
    stEmpty.files = [] ∧ EmptyGenSpec stEmpty cfgFit :=
  ⟨rfl, generatePDF_empty_spec stEmpty cfgFit rfl⟩

/-- Entries with equal names compare as a tie in either direction. -/
theorem sortLe_of_eq_names (dir : SortDir) (a b : Preview)
    (h : a.name = b.name) : sortLe dir a b = true := by
  have hz : localeCompare a.name b.name = 0 := by
    rw [h]
    unfold localeCompare
    rw [cmpCI_self]
  have hz2 : localeCompare b.name a.name = 0 := by
    rw [h]
    unfold localeCompare
    rw [cmpCI_self]
  cases dir <;> simp [sortLe, hz, hz2]

/-- Stability of sortImages: the subsequence of entries carrying any fixed
name is unchanged by the sort. -/
theorem sortImages_filter_name (st : State) (n : String) :
    (sortImages st).previews.filter (fun p => p.name == n)
      = st.previews.filter (fun p => p.name == n) := by
  have hpw : (st.previews.filter (fun p => p.name == n)).Pairwise
      (fun a b => sortLe (toggle st.sortOrder) a b = true) := by
    apply List.pairwise_of_forall_mem_list
    intro a ha b hb
    have ha2 : a.name = n := by
      have := (List.mem_filter.1 ha).2
      simpa using this
    have hb2 : b.name = n := by
      have := (List.mem_filter.1 hb).2
      simpa using this
    exact sortLe_of_eq_names _ a b (ha2.trans hb2.symm)
  have hsub : (st.previews.filter (fun p => p.name == n)).Sublist
      (st.previews.mergeSort (sortLe (toggle st.sortOrder))) :=
    List.sublist_mergeSort (sortLe_trans _) (sortLe_total _) hpw
      (List.filter_sublist _)
  have hself : (st.previews.filter (fun p => p.name == n)).filter
      (fun p => p.name == n) = st.previews.filter (fun p => p.name == n) :=
    List.filter_eq_self.2 (fun a ha => (List.mem_filter.1 ha).2)
  have hsub2 : (st.previews.filter (fun p => p.name == n)).Sublist
      ((st.previews.mergeSort (sortLe (toggle st.sortOrder))).filter
        (fun p => p.name == n)) := by
    have := List.Sublist.filter (fun p => p.name == n) hsub
    rwa [hself] at this
  have hperm : ((st.previews.mergeSort (sortLe (toggle st.sortOrder))).filter
      (fun p => p.name == n)).Perm (st.previews.filter (fun p => p.name == n)) :=
    (List.mergeSort_perm _ _).filter _
  exact (hsub2.eq_of_length hperm.length_eq.symm).symm

/-- C3 (amended): sortImages takes no direction parameter and toggles the
stored direction, but each invocation sorts by the direction it just
toggled TO; from the default ascending stored state two successive
invocations therefore yield sorted-descending then sorted-ascending (the
mirror image of the claimed order), each a stable permutation with equal
names keeping their prior relative order. -/
theorem sortImages_toggle_spec (st : State) : SortSpec st := by
  refine ⟨rfl, List.mergeSort_perm _ _,
    List.sorted_mergeSort (sortLe_trans _) (sortLe_total _) _,
    toggle_toggle _,
    (List.mergeSort_perm _ _).trans (List.mergeSort_perm _ _),
    ?_, rfl, fun n => sortImages_filter_name st n⟩
  rw [← toggle_toggle st.sortOrder]
  exact List.sorted_mergeSort (sortLe_trans _) (sortLe_total _) _

/-- C3 counterexample: on the two-entry state with the default ascending
stored direction, the FIRST invocation of sortImages returns the entries
in descending name order ("b.png" before "a.jpg", and "b.png" compares
strictly greater), refuting the claim that two successive invocations
yield sorted-ascending and then sorted-descending order. -/
theorem sortImages_first_desc_cex :
    stTwo.sortOrder = SortDir.asc ∧
    (sortImages stTwo).previews.map (·.name) = ["b.png", "a.jpg"] ∧
    localeCompare "b.png" "a.jpg" = 1 := by
  refine ⟨rfl, ?_, by decide⟩
  have h1 : sortLe SortDir.desc prevJpg prevPng = false := by decide
  have h2 : sortLe SortDir.desc prevPng prevJpg = true := by decide
  have hs : List.mergeSort [prevJpg, prevPng] (sortLe SortDir.desc)
      = [prevPng, prevJpg] := by
    simp [List.mergeSort, List.merge, h1, h2]
  show (List.mergeSort [prevJpg, prevPng] (sortLe SortDir.desc)).map (·.name) = _
  rw [hs]
  decide
